import Mathlib

/-!
Shallow embedding of the in-memory versioned document store
(class `MemStorage` of the repository's storage module) together with
the schema record types it manipulates, and proofs of the behavioural
claims made about it.

Modelling conventions:
* JavaScript `Map` objects are modelled as lists of records kept in
  insertion order; every record stored under a key carries that key in
  its `id` field, so `Map.set` becomes replace-in-place when the key is
  already present and append otherwise (`mapSetBy`).
* `randomUUID()` is modelled by a fresh-identifier counter `nextId`.
* `new Date()` is modelled by a logical clock `clock` that advances on
  every read, so successive timestamps are strictly increasing.
* JavaScript falsiness of the empty string and of `null`/`undefined`
  on nullable string fields is modelled explicitly (`jsOrNull`,
  `jsOrElse`); a key that is absent from a partial update, as opposed
  to one explicitly set to `null`, is modelled by a nested option.
* Versions, identifiers and timestamps are unbounded JS numbers and
  are modelled as `Nat`.
-/

namespace DocStore

/-- A user record (`users` table of the shared schema). -/
structure User where
  id : Nat
  email : String
  password : String
  name : String
  role : String
  createdAt : Nat
  updatedAt : Nat
  deriving Repr, DecidableEq

/-- A document record (`documents` table). `summary` and `tags` are
nullable columns, hence options. -/
structure Document where
  id : Nat
  title : String
  content : String
  summary : Option String
  tags : Option (List String)
  createdBy : Nat
  createdAt : Nat
  updatedAt : Nat
  version : Nat
  deriving Repr, DecidableEq

/-- A document version snapshot (`document_versions` table). -/
structure DocumentVersion where
  id : Nat
  documentId : Nat
  title : String
  content : String
  summary : Option String
  tags : Option (List String)
  version : Nat
  createdBy : Nat
  createdAt : Nat
  changeDescription : Option String
  deriving Repr, DecidableEq

/-- An activity audit record (`activities` table). -/
structure Activity where
  id : Nat
  type : String
  documentId : Option Nat
  userId : Nat
  description : String
  createdAt : Nat
  deriving Repr, DecidableEq

/-- Input shape accepted by `createUser` (`insertUserSchema`). -/
structure InsertUser where
  email : String
  password : String
  name : String
  role : Option String
  deriving Repr, DecidableEq

/-- Input shape accepted by `createDocument` (`insertDocumentSchema`):
title and content are required, summary and tags are optional nullable
columns whose absent and null cases behave identically under the
falsy-coalescing done by `createDocument`, so both collapse to `none`. -/
structure InsertDocument where
  title : String
  content : String
  summary : Option String
  tags : Option (List String)
  deriving Repr, DecidableEq

/-- Input shape accepted by `updateDocument`
(`Partial<InsertDocument>`): the outer option records whether the key
is present in the partial object at all, the inner option (for the
nullable columns) records an explicit null versus a proper value. -/
structure PartialInsertDocument where
  title : Option String
  content : Option String
  summary : Option (Option String)
  tags : Option (Option (List String))
  deriving Repr, DecidableEq

/-- Input shape accepted by `createDocumentVersion`
(`insertDocumentVersionSchema`). -/
structure InsertDocumentVersion where
  documentId : Nat
  title : String
  content : String
  summary : Option String
  tags : Option (List String)
  version : Nat
  createdBy : Nat
  changeDescription : Option String
  deriving Repr, DecidableEq

/-- Input shape accepted by `createActivity` (`insertActivitySchema`). -/
structure InsertActivity where
  type : String
  documentId : Option Nat
  userId : Nat
  description : String
  deriving Repr, DecidableEq

/-- A document joined with its resolved author, the result shape of
`getDocuments`/`searchDocuments` (`DocumentWithUser`, whose `createdBy`
field is replaced by the full user record). -/
structure DocumentWithUser where
  doc : Document
  user : User
  deriving Repr, DecidableEq

/-- A document joined with its author and version list, the result
shape of `getDocument` (`DocumentWithDetails`). -/
structure DocumentWithDetails where
  doc : Document
  user : User
  versions : List DocumentVersion
  deriving Repr, DecidableEq

/-- An activity joined with its acting user and optionally its
document, the result shape of `getRecentActivities`. -/
structure ActivityWithUser where
  act : Activity
  user : User
  document : Option Document
  deriving Repr, DecidableEq

/-- Models the JavaScript expression `s || null` on a nullable string
field: `null`/`undefined` and the falsy empty string collapse to null. -/
def jsOrNull : Option String → Option String
  | some s => if s == "" then none else some s
  | none => none

/-- Models the JavaScript expression `s || dflt` on a nullable string. -/
def jsOrElse (s : Option String) (dflt : String) : String :=
  match s with
  | some s => if s == "" then dflt else s
  | none => dflt

/-- Models `Map.set` on a map whose values carry their key in the field
read by `key`: replace in place when the key is present, append
otherwise (JS `Map` iteration is in insertion order). -/
def mapSetBy (l : List α) (key : α → Nat) (x : α) : List α :=
  if l.any (fun y => key y == key x) then
    l.map (fun y => if key y == key x then x else y)
  else l ++ [x]

/-- The state of a `MemStorage` instance: the four maps, plus the
identifier counter standing in for `randomUUID()` and the logical
clock standing in for `new Date()`. -/
structure MemStorage where
  users : List User
  documents : List Document
  documentVersions : List DocumentVersion
  activities : List Activity
  nextId : Nat
  clock : Nat
  deriving Repr, DecidableEq

namespace MemStorage

/-- The state built by the `MemStorage` constructor: four empty maps. -/
def init : MemStorage :=
  { users := [], documents := [], documentVersions := [], activities := []
    nextId := 0, clock := 0 }

/-- Models one call to `randomUUID()`. -/
def freshId (st : MemStorage) : Nat × MemStorage :=
  (st.nextId, { st with nextId := st.nextId + 1 })

/-- Models one call to `new Date()`. -/
def newDate (st : MemStorage) : Nat × MemStorage :=
  (st.clock, { st with clock := st.clock + 1 })

/-- `getUser(id)`: `this.users.get(id)`. -/
def getUser (st : MemStorage) (id : Nat) : Option User :=
  st.users.find? (fun u => u.id == id)

/-- `getUserByEmail(email)`. -/
def getUserByEmail (st : MemStorage) (email : String) : Option User :=
  st.users.find? (fun u => u.email == email)

/-- `createUser(insertUser)`: allocate an id, timestamp, default the
role (`insertUser.role || "user"`), store the record. -/
def createUser (st : MemStorage) (ins : InsertUser) : User × MemStorage :=
  let (id, st) := st.freshId
  let (now, st) := st.newDate
  let user : User :=
    { id, email := ins.email, password := ins.password, name := ins.name
      role := jsOrElse ins.role "user", createdAt := now, updatedAt := now }
  (user, { st with users := mapSetBy st.users (fun u => u.id) user })

/-- The comparison used by `getDocuments`' stable sort, from the JS
comparator `(a, b) => b.updatedAt.getTime() - a.updatedAt.getTime()`:
`a` may precede `b` when `b.updatedAt ≤ a.updatedAt`. -/
def byUpdatedAtDesc (a b : DocumentWithUser) : Bool :=
  decide (b.doc.updatedAt ≤ a.doc.updatedAt)

/-- `getDocuments()`: join every document with its author, dropping the
ones whose author does not resolve, then sort by `updatedAt`
descending (JS `Array.prototype.sort` is stable, as is `mergeSort`). -/
def getDocuments (st : MemStorage) : List DocumentWithUser :=
  (st.documents.filterMap
      (fun d => (st.getUser d.createdBy).map (fun u => DocumentWithUser.mk d u))).mergeSort
    byUpdatedAtDesc

/-- `getDocumentVersions(documentId)`: versions of the document, sorted
by version number descending (comparator `(a, b) => b.version - a.version`). -/
def getDocumentVersions (st : MemStorage) (documentId : Nat) : List DocumentVersion :=
  (st.documentVersions.filter (fun v => v.documentId == documentId)).mergeSort
    (fun a b => decide (b.version ≤ a.version))

/-- `getDocument(id)`: document, then author (failing the lookup when
the author is unresolved), then the version list. -/
def getDocument (st : MemStorage) (id : Nat) : Option DocumentWithDetails :=
  match st.documents.find? (fun d => d.id == id) with
  | none => none
  | some doc =>
    match st.getUser doc.createdBy with
    | none => none
    | some user => some ⟨doc, user, st.getDocumentVersions id⟩

/-- `createDocumentVersion(insertVersion)`: allocate id and timestamp,
coalesce falsy `summary`/`changeDescription` to null and null `tags` to
the empty array, store the snapshot. -/
def createDocumentVersion (st : MemStorage) (ins : InsertDocumentVersion) :
    DocumentVersion × MemStorage :=
  let (id, st) := st.freshId
  let (now, st) := st.newDate
  let version : DocumentVersion :=
    { id, documentId := ins.documentId, title := ins.title, content := ins.content
      summary := jsOrNull ins.summary, tags := some (ins.tags.getD [])
      version := ins.version, createdBy := ins.createdBy, createdAt := now
      changeDescription := jsOrNull ins.changeDescription }
  (version, { st with documentVersions := mapSetBy st.documentVersions (fun v => v.id) version })

/-- `createActivity(insertActivity)`: allocate id and timestamp, store
the audit record (`insertActivity.documentId || null` is the identity
on our id model, where ids are never the empty string). -/
def createActivity (st : MemStorage) (ins : InsertActivity) : Activity × MemStorage :=
  let (id, st) := st.freshId
  let (now, st) := st.newDate
  let activity : Activity :=
    { id, type := ins.type, documentId := ins.documentId, userId := ins.userId
      description := ins.description, createdAt := now }
  (activity, { st with activities := mapSetBy st.activities (fun a => a.id) activity })

/-- `createDocument(insertDocument, createdBy)`: allocate id and
timestamps, coalesce falsy `summary` to null and null `tags` to the
empty array, set `version = 1`, store the document, then record the
initial version snapshot and the `"created"` activity. -/
def createDocument (st : MemStorage) (ins : InsertDocument) (createdBy : Nat) :
    Document × MemStorage :=
  let (id, st) := st.freshId
  let (now, st) := st.newDate
  let document : Document :=
    { id, title := ins.title, content := ins.content
      summary := jsOrNull ins.summary, tags := some (ins.tags.getD [])
      createdBy, createdAt := now, updatedAt := now, version := 1 }
  let st := { st with documents := mapSetBy st.documents (fun d => d.id) document }
  let (_, st) := st.createDocumentVersion
    { documentId := id, title := document.title, content := document.content
      summary := document.summary, tags := document.tags, version := 1
      createdBy, changeDescription := some "Initial version" }
  let (_, st) := st.createActivity
    { type := "created", documentId := some id, userId := createdBy
      description := "Created document \"" ++ document.title ++ "\"" }
  (document, st)

/-- `updateDocument(id, updates, updatedBy)`: absent sentinel when the
document does not exist; otherwise spread `updates` over the record
(keys absent from the partial object keep the previous value), bump
`updatedAt` and `version`, store, then record the snapshot of the
merged state and the `"updated"` activity. -/
def updateDocument (st : MemStorage) (id : Nat) (updates : PartialInsertDocument)
    (updatedBy : Nat) : Option Document × MemStorage :=
  match st.documents.find? (fun d => d.id == id) with
  | none => (none, st)
  | some doc =>
    let (now, st) := st.newDate
    let newVersion := doc.version + 1
    let updatedDocument : Document :=
      { doc with
        title := updates.title.getD doc.title
        content := updates.content.getD doc.content
        summary := updates.summary.getD doc.summary
        tags := updates.tags.getD doc.tags
        updatedAt := now, version := newVersion }
    let st := { st with documents := mapSetBy st.documents (fun d => d.id) updatedDocument }
    let (_, st) := st.createDocumentVersion
      { documentId := id, title := updatedDocument.title, content := updatedDocument.content
        summary := updatedDocument.summary, tags := updatedDocument.tags
        version := newVersion, createdBy := updatedBy
        changeDescription := some "Document updated" }
    let (_, st) := st.createActivity
      { type := "updated", documentId := some id, userId := updatedBy
        description := "Updated document \"" ++ updatedDocument.title ++ "\"" }
    (some updatedDocument, st)

/-- `deleteDocument(id)`: false and no change when the document is
absent; otherwise drop its version rows, then its activity rows, then
the document itself (deleting while iterating a snapshot of the map
entries amounts to filtering, in insertion order). -/
def deleteDocument (st : MemStorage) (id : Nat) : Bool × MemStorage :=
  match st.documents.find? (fun d => d.id == id) with
  | none => (false, st)
  | some _ =>
    let st := { st with
      documentVersions := st.documentVersions.filter (fun v => !(v.documentId == id)) }
    let st := { st with
      activities := st.activities.filter (fun a => !(a.documentId == some id)) }
    let st := { st with documents := st.documents.filter (fun d => !(d.id == id)) }
    (true, st)

end MemStorage

/-- Character-list version of `String.startsWith`: used to build the
substring test. -/
def charsStartWith : List Char → List Char → Bool
  | _, [] => true
  | [], _ :: _ => false
  | c :: cs, d :: ds => c == d && charsStartWith cs ds

/-- Character-list version of JavaScript `String.prototype.includes`:
some suffix of `l` starts with `sub`. -/
def charsInclude : List Char → List Char → Bool
  | [], sub => charsStartWith [] sub
  | c :: t, sub => charsStartWith (c :: t) sub || charsInclude t sub

/-- Models `s.includes(sub)` on JavaScript strings. -/
def strIncludes (s sub : String) : Bool :=
  charsInclude s.toList sub.toList

/-- Models `s.toLowerCase()` on JavaScript strings: lower-case every
character. -/
def strToLower (s : String) : String :=
  String.mk (s.data.map Char.toLower)

namespace MemStorage

/-- `searchDocuments(query)`: filter `getDocuments()` by a
case-insensitive substring match on title, content, truthy summary, or
any tag (a null summary or a summary equal to the falsy empty string
skips the summary test; null tags skip the tag test). -/
def searchDocuments (st : MemStorage) (query : String) : List DocumentWithUser :=
  let allDocs := st.getDocuments
  let lowerQuery := strToLower query
  allDocs.filter (fun d =>
    strIncludes (strToLower d.doc.title) lowerQuery ||
    strIncludes (strToLower d.doc.content) lowerQuery ||
    (match d.doc.summary with
     | some s => !(s == "") && strIncludes (strToLower s) lowerQuery
     | none => false) ||
    (match d.doc.tags with
     | some ts => ts.any (fun tag => strIncludes (strToLower tag) lowerQuery)
     | none => false))

/-- The activities sorted newest first, the first stage of
`getRecentActivities` (comparator `(a, b) => b.createdAt.getTime() - a.createdAt.getTime()`). -/
def recentSorted (st : MemStorage) : List Activity :=
  st.activities.mergeSort (fun a b => decide (b.createdAt ≤ a.createdAt))

/-- The document join of one activity:
`activity.documentId ? this.documents.get(activity.documentId) : undefined`. -/
def docLookup (st : MemStorage) (a : Activity) : Option Document :=
  match a.documentId with
  | some did => st.documents.find? (fun d => d.id == did)
  | none => none

/-- The user/document join applied to each recent activity: activities
whose user does not resolve produce nothing. -/
def joinActivity (st : MemStorage) (a : Activity) : Option ActivityWithUser :=
  match st.getUser a.userId with
  | some user => some ⟨a, user, st.docLookup a⟩
  | none => none

/-- `getRecentActivities(limit)` (the TS parameter defaults to 10; the
model takes it explicitly): sort newest first, truncate to `limit`,
join each survivor with its user and document, silently dropping
activities whose user does not resolve. -/
def getRecentActivities (st : MemStorage) (limit : Nat) : List ActivityWithUser :=
  ((st.recentSorted).take limit).filterMap st.joinActivity

end MemStorage

/-- One mutating call against the store, for reachability statements. -/
inductive Op where
  | newUser (ins : InsertUser)
  | create (ins : InsertDocument) (createdBy : Nat)
  | update (id : Nat) (updates : PartialInsertDocument) (updatedBy : Nat)
  | delete (id : Nat)
  deriving Repr, DecidableEq

/-- Whether an operation is a `deleteDocument` call. -/
def Op.isDelete : Op → Bool
  | .delete _ => true
  | _ => false

/-- Applies one operation to the state, discarding the return value. -/
def applyOp (st : MemStorage) : Op → MemStorage
  | .newUser ins => (st.createUser ins).2
  | .create ins createdBy => (st.createDocument ins createdBy).2
  | .update id updates updatedBy => (st.updateDocument id updates updatedBy).2
  | .delete id => (st.deleteDocument id).2

/-- Runs a sequence of operations from a starting state. -/
def runOps (st : MemStorage) (ops : List Op) : MemStorage :=
  ops.foldl applyOp st

/-- Example state used by witnesses: a single document (id 0) created
by user 7 in a fresh store. -/
def exSt1 : MemStorage := (MemStorage.init.createDocument ⟨"t", "c", none, none⟩ 7).2

/-- Well-formedness of a store state: every stored record's identifier
(and every version row's document reference) was produced by an earlier
`randomUUID()` call, so it lies below the fresh-identifier counter.
Every state reachable from `MemStorage.init` satisfies this
(see `wf_runOps`). -/
structure WF (st : MemStorage) : Prop where
  user_lt : ∀ u ∈ st.users, u.id < st.nextId
  doc_lt : ∀ d ∈ st.documents, d.id < st.nextId
  ver_lt : ∀ v ∈ st.documentVersions, v.id < st.nextId
  act_lt : ∀ a ∈ st.activities, a.id < st.nextId
  verDoc_lt : ∀ v ∈ st.documentVersions, v.documentId < st.nextId

/-- The document record produced by spreading a partial update over an
existing document inside `updateDocument`: a key absent from the
partial object keeps the previous value, `updatedAt` becomes the
current time, `version` grows by one. -/
def mergeUpdate (doc : Document) (updates : PartialInsertDocument) (now : Nat) : Document :=
  { doc with
    title := updates.title.getD doc.title
    content := updates.content.getD doc.content
    summary := updates.summary.getD doc.summary
    tags := updates.tags.getD doc.tags
    updatedAt := now
    version := doc.version + 1 }

/-- The version-history invariant of C1, in its amended form: for every
stored document, the version rows with its id, in insertion order, are
numbered `1..version` contiguously, and any row numbered `version`
snapshots the current title and content exactly and the current
summary/tags up to the normalization performed by
`createDocumentVersion` (falsy summary to null, null tags to the empty
array). -/
structure VerInv (st : MemStorage) : Prop where
  ver_range : ∀ d ∈ st.documents,
    ((st.documentVersions.filter (fun v => v.documentId == d.id)).map
        (fun v => v.version)) = List.range' 1 d.version
  ver_last : ∀ d ∈ st.documents,
    ∀ v ∈ st.documentVersions.filter (fun v => v.documentId == d.id),
      v.version = d.version →
        v.title = d.title ∧ v.content = d.content ∧
        v.summary = jsOrNull d.summary ∧ v.tags = some (d.tags.getD [])

/-- Operation sequence for the C1 witness: one create, one title
update. -/
def exOpsC1 : List Op :=
  [Op.create ⟨"t", "c", none, none⟩ 7, Op.update 0 ⟨some "t2", none, none, none⟩ 9]

/-- The document stored after `exOpsC1`. -/
def exDocC1 : Document :=
  { id := 0, title := "t2", content := "c", summary := none, tags := some []
    createdBy := 7, createdAt := 0, updatedAt := 3, version := 2 }

/-- The version-2 row stored after `exOpsC1`. -/
def exRowC1 : DocumentVersion :=
  { id := 3, documentId := 0, title := "t2", content := "c", summary := none
    tags := some [], version := 2, createdBy := 9, createdAt := 4
    changeDescription := some "Document updated" }

/-- Operation sequence for the C1 counterexample: one create, then one
update that sets `summary` to the falsy empty string and `tags` to an
explicit null. No delete occurs. -/
def exOpsC1bad : List Op :=
  [Op.create ⟨"t", "c", none, none⟩ 7,
   Op.update 0 ⟨none, none, some (some ""), some none⟩ 9]

/-- The document stored after `exOpsC1bad`: summary `""`, tags null. -/
def exDocC1bad : Document :=
  { id := 0, title := "t", content := "c", summary := some "", tags := none
    createdBy := 7, createdAt := 0, updatedAt := 3, version := 2 }

/-- The version-2 row stored after `exOpsC1bad`: summary null, tags
empty array. -/
def exRowC1bad : DocumentVersion :=
  { id := 3, documentId := 0, title := "t", content := "c", summary := none
    tags := some [], version := 2, createdBy := 9, createdAt := 4
    changeDescription := some "Document updated" }

/-- The document stored in `exSt1`. -/
def exDoc1 : Document :=
  { id := 0, title := "t", content := "c", summary := none, tags := some []
    createdBy := 7, createdAt := 0, updatedAt := 0, version := 1 }

/-- The merged document returned by the C3 counterexample update. -/
def exMergedC3 : Document :=
  { id := 0, title := "t", content := "c", summary := some "", tags := some []
    createdBy := 7, createdAt := 0, updatedAt := 3, version := 2 }

/-- The version row appended by the C3 counterexample update. -/
def exRowC3 : DocumentVersion :=
  { id := 3, documentId := 0, title := "t", content := "c", summary := none
    tags := some [], version := 2, createdBy := 9, createdAt := 4
    changeDescription := some "Document updated" }

/-- The property of a state that all its activities are creations or
updates. -/
def ActOk (st : MemStorage) : Prop :=
  ∀ a ∈ st.activities, a.type = "created" ∨ a.type = "updated"

/-- The search predicate exactly as the specification words it: the
lower-cased query is a substring of the lower-cased title, of the
lower-cased content, of the lower-cased summary when one is present,
or of some lower-cased tag. (Spec-side definition, compared against
the implementation in C5.) -/
def specSearchMatch (query : String) (d : DocumentWithUser) : Bool :=
  strIncludes (strToLower d.doc.title) (strToLower query) ||
  strIncludes (strToLower d.doc.content) (strToLower query) ||
  (match d.doc.summary with
   | some s => strIncludes (strToLower s) (strToLower query)
   | none => false) ||
  (match d.doc.tags with
   | some ts => ts.any (fun tag => strIncludes (strToLower tag) (strToLower query))
   | none => false)

end DocStore

namespace DocStore

/-! Generic helper lemmas about the modelling combinators. -/

theorem charsInclude_nil_right (l : List Char) : charsInclude l [] = true := by
  cases l <;> simp [charsInclude, charsStartWith]

theorem mapSetBy_of_fresh {α : Type} {l : List α} {key : α → Nat} {x : α}
    (h : ∀ y ∈ l, key y ≠ key x) : mapSetBy l key x = l ++ [x] := by
  have hany : ¬ (l.any (fun y => key y == key x) = true) := by
    simp only [List.any_eq_true, beq_iff_eq, not_exists]
    intro y hy
    exact h y hy.1 hy.2
  rw [mapSetBy, if_neg hany]

theorem mapSetBy_of_mem {α : Type} {l : List α} {key : α → Nat} {x : α}
    (h : ∃ y ∈ l, key y = key x) :
    mapSetBy l key x = l.map (fun y => if key y == key x then x else y) := by
  have hany : l.any (fun y => key y == key x) = true := by
    simp only [List.any_eq_true, beq_iff_eq]
    obtain ⟨y, hy, hk⟩ := h
    exact ⟨y, hy, hk⟩
  rw [mapSetBy, if_pos hany]

theorem pairwise_filterMap_of_pairwise {α β : Type} {R : α → α → Prop} {S : β → β → Prop}
    {f : α → Option β}
    (H : ∀ a b x y, R a b → f a = some x → f b = some y → S x y) :
    ∀ {l : List α}, l.Pairwise R → (l.filterMap f).Pairwise S := by
  intro l hl
  induction l with
  | nil => simp
  | cons a t ih =>
    rw [List.pairwise_cons] at hl
    obtain ⟨ha, ht⟩ := hl
    rw [List.filterMap_cons]
    cases hfa : f a with
    | none => exact ih ht
    | some x =>
      refine List.Pairwise.cons ?_ (ih ht)
      intro y hy
      obtain ⟨b, hb, hfb⟩ := List.mem_filterMap.mp hy
      exact H a b x y (ha b hb) hfa hfb

theorem length_filterMap_eq_countP {α β : Type} (f : α → Option β) (l : List α) :
    (l.filterMap f).length = l.countP (fun a => (f a).isSome) := by
  induction l with
  | nil => rfl
  | cons a t ih =>
    rw [List.filterMap_cons, List.countP_cons]
    cases hfa : f a <;> simp [hfa, ih]

end DocStore

namespace DocStore

/-- C7: `updateDocument` returns the absent-result sentinel, not an
exception, whenever no document with the id exists, and in that case
the store state is completely unchanged. -/
theorem claim7_update_notFound_noop (st : MemStorage) (id : Nat)
    (updates : PartialInsertDocument) (updatedBy : Nat)
    (h : st.documents.find? (fun d => d.id == id) = none) :
    st.updateDocument id updates updatedBy = (none, st) := by
  rw [MemStorage.updateDocument, h]

/-- C7 witness: updating the missing document 5 in the one-document
example store is a no-op returning the sentinel. -/
theorem claim7_update_notFound_noop_witness :
    exSt1.documents.find? (fun d => d.id == 5) = none ∧
    exSt1.updateDocument 5 ⟨none, none, none, none⟩ 9 = (none, exSt1) := by
  refine ⟨by decide, claim7_update_notFound_noop exSt1 5 ⟨none, none, none, none⟩ 9 (by decide)⟩

/-- C2: `deleteDocument` returns false and leaves the store unchanged
when the document is absent; otherwise it returns true and removes the
document together with every DocumentVersion row and every Activity row
whose `documentId` equals the id, leaving users untouched, after which
`getDocument` yields the absent sentinel, `getDocumentVersions` yields
the empty sequence, and no activity referencing the id remains. -/
theorem claim2_delete_cascade (st : MemStorage) (id : Nat) :
    (st.documents.find? (fun d => d.id == id) = none →
      st.deleteDocument id = (false, st)) ∧
    ((∃ d, st.documents.find? (fun d => d.id == id) = some d) →
      (st.deleteDocument id).1 = true ∧
      (st.deleteDocument id).2.documents = st.documents.filter (fun d => !(d.id == id)) ∧
      (st.deleteDocument id).2.documentVersions
        = st.documentVersions.filter (fun v => !(v.documentId == id)) ∧
      (st.deleteDocument id).2.activities
        = st.activities.filter (fun a => !(a.documentId == some id)) ∧
      (st.deleteDocument id).2.users = st.users ∧
      (st.deleteDocument id).2.getDocument id = none ∧
      (st.deleteDocument id).2.getDocumentVersions id = [] ∧
      ∀ a ∈ (st.deleteDocument id).2.activities, a.documentId ≠ some id) := by
  constructor
  · intro h
    rw [MemStorage.deleteDocument, h]
  · rintro ⟨d, hd⟩
    have hdel : st.deleteDocument id =
        (true, { st with
          documentVersions := st.documentVersions.filter (fun v => !(v.documentId == id))
          activities := st.activities.filter (fun a => !(a.documentId == some id))
          documents := st.documents.filter (fun d => !(d.id == id)) }) := by
      rw [MemStorage.deleteDocument, hd]
    rw [hdel]
    have hfind : (st.documents.filter (fun d => !(d.id == id))).find?
        (fun d => d.id == id) = none := by
      rw [List.find?_eq_none]
      intro x hx
      have hx2 := (List.mem_filter.mp hx).2
      simp only [Bool.not_eq_eq_eq_not, Bool.not_true] at hx2
      simp [hx2]
    have hvers : ((st.documentVersions.filter (fun v => !(v.documentId == id))).filter
        (fun v => v.documentId == id)) = [] := by
      rw [List.filter_filter, List.filter_eq_nil_iff]
      intro a _
      simp
    refine ⟨rfl, rfl, rfl, rfl, rfl, ?_, ?_, ?_⟩
    · rw [MemStorage.getDocument]
      simp only [hfind]
    · rw [MemStorage.getDocumentVersions]
      simp only [hvers, List.mergeSort_nil]
    · intro a ha
      have := (List.mem_filter.mp ha).2
      simpa using this

/-- C2 witness: deleting document 0 from the one-document example
store succeeds and cascades. -/
theorem claim2_delete_cascade_witness :
    (exSt1.deleteDocument 0).1 = true ∧
    (exSt1.deleteDocument 0).2.getDocument 0 = none ∧
    (exSt1.deleteDocument 0).2.getDocumentVersions 0 = [] ∧
    (exSt1.deleteDocument 0).2.activities
      = exSt1.activities.filter (fun a => !(a.documentId == some 0)) := by
  obtain ⟨h1, _, _, h4, _, h6, h7, _⟩ := (claim2_delete_cascade exSt1 0).2 ⟨_, rfl⟩
  exact ⟨h1, h6, h7, h4⟩

end DocStore

namespace DocStore

/-- C4: `createDocument` allocates a fresh identifier, returns a
document with `version = 1` and `createdAt = updatedAt`, appends
exactly one DocumentVersion row (version 1, change description
"Initial version") and exactly one `"created"` Activity for that
document, and changes nothing else (in particular users are untouched
and the existing documents, version rows and activities are preserved
in place). Stated for well-formed states, which all reachable states
are. -/
theorem claim4_create_shape (st : MemStorage) (ins : InsertDocument) (createdBy : Nat)
    (hwf : WF st) :
    ∃ doc st', st.createDocument ins createdBy = (doc, st') ∧
      (∀ d ∈ st.documents, d.id ≠ doc.id) ∧
      doc.version = 1 ∧ doc.createdAt = doc.updatedAt ∧
      st'.documents = st.documents ++ [doc] ∧
      (∃ v, st'.documentVersions = st.documentVersions ++ [v] ∧
        v.documentId = doc.id ∧ v.version = 1 ∧
        v.changeDescription = some "Initial version") ∧
      (∃ a, st'.activities = st.activities ++ [a] ∧
        a.type = "created" ∧ a.documentId = some doc.id ∧ a.userId = createdBy) ∧
      st'.users = st.users := by
  simp only [MemStorage.createDocument, MemStorage.createDocumentVersion,
    MemStorage.createActivity, MemStorage.freshId, MemStorage.newDate]
  rw [mapSetBy_of_fresh (fun y hy => by
    have := hwf.doc_lt y hy
    show y.id ≠ st.nextId
    omega)]
  rw [mapSetBy_of_fresh (fun y hy => by
    have := hwf.ver_lt y hy
    show y.id ≠ st.nextId + 1
    omega)]
  rw [mapSetBy_of_fresh (fun y hy => by
    have := hwf.act_lt y hy
    show y.id ≠ st.nextId + 2
    omega)]
  refine ⟨_, _, rfl, ?_, rfl, rfl, rfl, ⟨_, rfl, rfl, rfl, ?_⟩, ⟨_, rfl, rfl, rfl, rfl⟩, rfl⟩
  · intro d hd
    have := hwf.doc_lt d hd
    show d.id ≠ st.nextId
    omega
  · show jsOrNull (some "Initial version") = some "Initial version"
    rfl

end DocStore

namespace DocStore

theorem jsOrNull_idem (s : Option String) : jsOrNull (jsOrNull s) = jsOrNull s := by
  cases s with
  | none => rfl
  | some t =>
    by_cases h : t == ""
    · simp [jsOrNull, h]
    · simp [jsOrNull, h]

theorem mapSetBy_eq_map_of_any {α : Type} {l : List α} {key : α → Nat} {x : α}
    (h : l.any (fun y => key y == key x) = true) :
    mapSetBy l key x = l.map (fun y => if key y == key x then x else y) := by
  rw [mapSetBy, if_pos h]

/-- Unfolded form of `createUser` when the allocated id is fresh. -/
theorem createUser_eq (st : MemStorage) (ins : InsertUser)
    (huser : ∀ u ∈ st.users, u.id ≠ st.nextId) :
    st.createUser ins =
      ({ id := st.nextId, email := ins.email, password := ins.password
         name := ins.name, role := jsOrElse ins.role "user"
         createdAt := st.clock, updatedAt := st.clock },
       { users := st.users ++
           [{ id := st.nextId, email := ins.email, password := ins.password
              name := ins.name, role := jsOrElse ins.role "user"
              createdAt := st.clock, updatedAt := st.clock }]
         documents := st.documents
         documentVersions := st.documentVersions
         activities := st.activities
         nextId := st.nextId + 1
         clock := st.clock + 1 }) := by
  simp only [MemStorage.createUser, MemStorage.freshId, MemStorage.newDate]
  rw [mapSetBy_of_fresh (fun y hy => by
    have := huser y hy
    show y.id ≠ st.nextId
    exact this)]

/-- Unfolded form of `createDocument` when the allocated ids are fresh. -/
theorem createDocument_eq (st : MemStorage) (ins : InsertDocument) (createdBy : Nat)
    (hdoc : ∀ d ∈ st.documents, d.id ≠ st.nextId)
    (hver : ∀ v ∈ st.documentVersions, v.id ≠ st.nextId + 1)
    (hact : ∀ a ∈ st.activities, a.id ≠ st.nextId + 2) :
    st.createDocument ins createdBy =
      ({ id := st.nextId, title := ins.title, content := ins.content
         summary := jsOrNull ins.summary, tags := some (ins.tags.getD [])
         createdBy, createdAt := st.clock, updatedAt := st.clock, version := 1 },
       { users := st.users
         documents := st.documents ++
           [{ id := st.nextId, title := ins.title, content := ins.content
              summary := jsOrNull ins.summary, tags := some (ins.tags.getD [])
              createdBy, createdAt := st.clock, updatedAt := st.clock, version := 1 }]
         documentVersions := st.documentVersions ++
           [{ id := st.nextId + 1, documentId := st.nextId, title := ins.title
              content := ins.content, summary := jsOrNull ins.summary
              tags := some (ins.tags.getD []), version := 1, createdBy
              createdAt := st.clock + 1, changeDescription := some "Initial version" }]
         activities := st.activities ++
           [{ id := st.nextId + 2, type := "created", documentId := some st.nextId
              userId := createdBy
              description := "Created document \"" ++ ins.title ++ "\""
              createdAt := st.clock + 2 }]
         nextId := st.nextId + 3
         clock := st.clock + 3 }) := by
  simp only [MemStorage.createDocument, MemStorage.createDocumentVersion,
    MemStorage.createActivity, MemStorage.freshId, MemStorage.newDate]
  rw [mapSetBy_of_fresh (fun y hy => by
    have := hdoc y hy
    show y.id ≠ st.nextId
    exact this)]
  rw [mapSetBy_of_fresh (fun y hy => by
    have := hver y hy
    show y.id ≠ st.nextId + 1
    exact this)]
  rw [mapSetBy_of_fresh (fun y hy => by
    have := hact y hy
    show y.id ≠ st.nextId + 2
    exact this)]
  rw [jsOrNull_idem]
  rfl

/-- Unfolded form of `updateDocument` on a hit, when the allocated row
ids are fresh. -/
theorem updateDocument_eq (st : MemStorage) (id : Nat) (updates : PartialInsertDocument)
    (updatedBy : Nat) (doc : Document)
    (hfind : st.documents.find? (fun d => d.id == id) = some doc)
    (hver : ∀ v ∈ st.documentVersions, v.id ≠ st.nextId)
    (hact : ∀ a ∈ st.activities, a.id ≠ st.nextId + 1) :
    st.updateDocument id updates updatedBy =
      (some (mergeUpdate doc updates st.clock),
       { users := st.users
         documents := st.documents.map (fun y =>
           if y.id == doc.id then mergeUpdate doc updates st.clock else y)
         documentVersions := st.documentVersions ++
           [{ id := st.nextId, documentId := id
              title := (mergeUpdate doc updates st.clock).title
              content := (mergeUpdate doc updates st.clock).content
              summary := jsOrNull ((mergeUpdate doc updates st.clock).summary)
              tags := some (((mergeUpdate doc updates st.clock).tags).getD [])
              version := doc.version + 1, createdBy := updatedBy
              createdAt := st.clock + 1
              changeDescription := some "Document updated" }]
         activities := st.activities ++
           [{ id := st.nextId + 1, type := "updated", documentId := some id
              userId := updatedBy
              description := "Updated document \""
                ++ (mergeUpdate doc updates st.clock).title ++ "\""
              createdAt := st.clock + 2 }]
         nextId := st.nextId + 2
         clock := st.clock + 3 }) := by
  simp only [MemStorage.updateDocument, MemStorage.createDocumentVersion,
    MemStorage.createActivity, MemStorage.freshId, MemStorage.newDate, hfind]
  rw [mapSetBy_eq_map_of_any]
  · rw [mapSetBy_of_fresh (fun y hy => by
      have := hver y hy
      show y.id ≠ st.nextId
      exact this)]
    rw [mapSetBy_of_fresh (fun y hy => by
      have := hact y hy
      show y.id ≠ st.nextId + 1
      exact this)]
    rfl
  · refine List.any_eq_true.mpr ⟨doc, List.mem_of_find?_eq_some hfind, ?_⟩
    show (doc.id == doc.id) = true
    simp

end DocStore

namespace DocStore

/-- `createUser` only touches the user map, the id counter and the
clock. -/
theorem createUser_components (st : MemStorage) (ins : InsertUser) :
    (st.createUser ins).2.documents = st.documents ∧
    (st.createUser ins).2.documentVersions = st.documentVersions ∧
    (st.createUser ins).2.activities = st.activities ∧
    (st.createUser ins).2.nextId = st.nextId + 1 := by
  simp [MemStorage.createUser, MemStorage.freshId, MemStorage.newDate]

theorem wf_init : WF MemStorage.init := by
  constructor <;> simp [MemStorage.init]

theorem wf_createUser {st : MemStorage} (hwf : WF st) (ins : InsertUser) :
    WF (st.createUser ins).2 := by
  rw [createUser_eq st ins (fun u hu => Nat.ne_of_lt (hwf.user_lt u hu))]
  refine ⟨?_, ?_, ?_, ?_, ?_⟩ <;> intro x hx <;> dsimp only at hx ⊢
  · rcases List.mem_append.mp hx with h | h
    · have := hwf.user_lt x h
      omega
    · rcases List.mem_singleton.mp h with rfl
      dsimp only
      omega
  · have := hwf.doc_lt x hx
    omega
  · have := hwf.ver_lt x hx
    omega
  · have := hwf.act_lt x hx
    omega
  · have := hwf.verDoc_lt x hx
    omega

theorem wf_createDocument {st : MemStorage} (hwf : WF st) (ins : InsertDocument)
    (createdBy : Nat) : WF (st.createDocument ins createdBy).2 := by
  rw [createDocument_eq st ins createdBy
    (fun d hd => Nat.ne_of_lt (hwf.doc_lt d hd))
    (fun v hv => by have := hwf.ver_lt v hv; omega)
    (fun a ha => by have := hwf.act_lt a ha; omega)]
  refine ⟨?_, ?_, ?_, ?_, ?_⟩ <;> intro x hx <;> dsimp only at hx ⊢
  · have := hwf.user_lt x hx
    omega
  · rcases List.mem_append.mp hx with h | h
    · have := hwf.doc_lt x h
      omega
    · rcases List.mem_singleton.mp h with rfl
      dsimp only
      omega
  · rcases List.mem_append.mp hx with h | h
    · have := hwf.ver_lt x h
      omega
    · rcases List.mem_singleton.mp h with rfl
      dsimp only
      omega
  · rcases List.mem_append.mp hx with h | h
    · have := hwf.act_lt x h
      omega
    · rcases List.mem_singleton.mp h with rfl
      dsimp only
      omega
  · rcases List.mem_append.mp hx with h | h
    · have := hwf.verDoc_lt x h
      omega
    · rcases List.mem_singleton.mp h with rfl
      dsimp only
      omega

theorem wf_updateDocument {st : MemStorage} (hwf : WF st) (id : Nat)
    (updates : PartialInsertDocument) (updatedBy : Nat) :
    WF (st.updateDocument id updates updatedBy).2 := by
  cases hfind : st.documents.find? (fun d => d.id == id) with
  | none =>
    rw [MemStorage.updateDocument, hfind]
    exact hwf
  | some doc =>
    rw [updateDocument_eq st id updates updatedBy doc hfind
      (fun v hv => Nat.ne_of_lt (hwf.ver_lt v hv))
      (fun a ha => by have := hwf.act_lt a ha; omega)]
    refine ⟨?_, ?_, ?_, ?_, ?_⟩ <;> intro x hx <;> dsimp only at hx ⊢
    · have := hwf.user_lt x hx
      omega
    · rcases List.mem_map.mp hx with ⟨y, hy, rfl⟩
      by_cases hc : (y.id == doc.id) = true
      · rw [if_pos hc]
        have hd : doc ∈ st.documents := List.mem_of_find?_eq_some hfind
        have := hwf.doc_lt doc hd
        have : (mergeUpdate doc updates st.clock).id = doc.id := rfl
        omega
      · rw [if_neg hc]
        have := hwf.doc_lt y hy
        omega
    · rcases List.mem_append.mp hx with h | h
      · have := hwf.ver_lt x h
        omega
      · rcases List.mem_singleton.mp h with rfl
        dsimp only
        omega
    · rcases List.mem_append.mp hx with h | h
      · have := hwf.act_lt x h
        omega
      · rcases List.mem_singleton.mp h with rfl
        dsimp only
        omega
    · rcases List.mem_append.mp hx with h | h
      · have := hwf.verDoc_lt x h
        omega
      · rcases List.mem_singleton.mp h with rfl
        dsimp only
        have hbeq := List.find?_some hfind
        have : doc.id = id := eq_of_beq hbeq
        have hd : doc ∈ st.documents := List.mem_of_find?_eq_some hfind
        have := hwf.doc_lt doc hd
        omega

theorem wf_deleteDocument {st : MemStorage} (hwf : WF st) (id : Nat) :
    WF (st.deleteDocument id).2 := by
  cases hfind : st.documents.find? (fun d => d.id == id) with
  | none =>
    rw [MemStorage.deleteDocument, hfind]
    exact hwf
  | some doc =>
    rw [MemStorage.deleteDocument, hfind]
    refine ⟨?_, ?_, ?_, ?_, ?_⟩ <;> intro x hx <;> dsimp only at hx ⊢
    · exact hwf.user_lt x hx
    · exact hwf.doc_lt x (List.mem_filter.mp hx).1
    · exact hwf.ver_lt x (List.mem_filter.mp hx).1
    · exact hwf.act_lt x (List.mem_filter.mp hx).1
    · exact hwf.verDoc_lt x (List.mem_filter.mp hx).1

theorem wf_applyOp {st : MemStorage} (hwf : WF st) (op : Op) : WF (applyOp st op) := by
  cases op with
  | newUser ins => exact wf_createUser hwf ins
  | create ins createdBy => exact wf_createDocument hwf ins createdBy
  | update id updates updatedBy => exact wf_updateDocument hwf id updates updatedBy
  | delete id => exact wf_deleteDocument hwf id

/-- Every state reachable from the constructor state is well-formed. -/
theorem wf_runOps (ops : List Op) : WF (runOps MemStorage.init ops) := by
  suffices h : ∀ st, WF st → WF (runOps st ops) from h _ wf_init
  induction ops with
  | nil => exact fun st h => h
  | cons op t ih =>
    intro st h
    rw [runOps, List.foldl_cons]
    exact ih _ (wf_applyOp h op)

end DocStore

namespace DocStore

theorem range'_one_concat (n : Nat) :
    List.range' 1 (n + 1) = List.range' 1 n ++ [n + 1] := by
  rw [List.range'_concat]
  congr 1
  simp [Nat.one_mul]
  omega

theorem verInv_init : VerInv MemStorage.init := by
  constructor <;> simp [MemStorage.init]

theorem verInv_createUser {st : MemStorage} (hvi : VerInv st) (ins : InsertUser) :
    VerInv (st.createUser ins).2 := by
  obtain ⟨h1, h2, h3, _⟩ := createUser_components st ins
  constructor
  · intro d hd
    rw [h2]
    rw [h1] at hd
    exact hvi.ver_range d hd
  · intro d hd v hv hvv
    rw [h1] at hd
    rw [h2] at hv
    exact hvi.ver_last d hd v hv hvv

theorem verInv_createDocument {st : MemStorage} (hwf : WF st) (hvi : VerInv st)
    (ins : InsertDocument) (createdBy : Nat) :
    VerInv (st.createDocument ins createdBy).2 := by
  rw [createDocument_eq st ins createdBy
    (fun d hd => Nat.ne_of_lt (hwf.doc_lt d hd))
    (fun v hv => by have := hwf.ver_lt v hv; omega)
    (fun a ha => by have := hwf.act_lt a ha; omega)]
  have hold : st.documentVersions.filter (fun v => v.documentId == st.nextId) = [] := by
    rw [List.filter_eq_nil_iff]
    intro v hv
    have := hwf.verDoc_lt v hv
    simp only [beq_iff_eq]
    omega
  constructor
  · intro d hd
    dsimp only at hd ⊢
    rcases List.mem_append.mp hd with h | h
    · have hne : (st.nextId == d.id) = false := by
        have := hwf.doc_lt d h
        simp only [beq_eq_false_iff_ne, ne_eq]
        omega
      rw [List.filter_append]
      simp only [List.filter_cons, List.filter_nil]
      rw [hne]
      simp only [Bool.false_eq_true, if_false, List.append_nil]
      exact hvi.ver_range d h
    · rcases List.mem_singleton.mp h with rfl
      dsimp only
      rw [List.filter_append, hold]
      simp only [List.filter_cons, List.filter_nil]
      simp [List.range'_one]
  · intro d hd v hv hvv
    dsimp only at hd hv hvv ⊢
    rcases List.mem_append.mp hd with h | h
    · have hne : (st.nextId == d.id) = false := by
        have := hwf.doc_lt d h
        simp only [beq_eq_false_iff_ne, ne_eq]
        omega
      rw [List.filter_append] at hv
      simp only [List.filter_cons, List.filter_nil] at hv
      rw [hne] at hv
      simp only [Bool.false_eq_true, if_false, List.append_nil] at hv
      exact hvi.ver_last d h v hv hvv
    · rcases List.mem_singleton.mp h with rfl
      dsimp only at hv
      rw [List.filter_append, hold] at hv
      simp only [List.filter_cons, List.filter_nil] at hv
      simp only [beq_self_eq_true, if_true, List.nil_append] at hv
      rcases List.mem_singleton.mp hv with rfl
      refine ⟨rfl, rfl, ?_, rfl⟩
      dsimp only
      exact (jsOrNull_idem ins.summary).symm

theorem verInv_updateDocument {st : MemStorage} (hwf : WF st) (hvi : VerInv st)
    (id : Nat) (updates : PartialInsertDocument) (updatedBy : Nat) :
    VerInv (st.updateDocument id updates updatedBy).2 := by
  cases hfind : st.documents.find? (fun d => d.id == id) with
  | none =>
    rw [MemStorage.updateDocument, hfind]
    exact hvi
  | some doc =>
    have hdocmem : doc ∈ st.documents := List.mem_of_find?_eq_some hfind
    have hbeqfind := List.find?_some hfind
    have hdocid : doc.id = id := eq_of_beq hbeqfind
    subst hdocid
    rw [updateDocument_eq st doc.id updates updatedBy doc hfind
      (fun v hv => Nat.ne_of_lt (hwf.ver_lt v hv))
      (fun a ha => by have := hwf.act_lt a ha; omega)]
    constructor
    · intro d hd
      dsimp only at hd ⊢
      rcases List.mem_map.mp hd with ⟨y, hy, rfl⟩
      by_cases hc : (y.id == doc.id) = true
      · rw [if_pos hc]
        dsimp only [mergeUpdate]
        rw [List.filter_append]
        simp only [List.filter_cons, List.filter_nil]
        simp only [beq_self_eq_true, if_true]
        rw [List.map_append, hvi.ver_range doc hdocmem]
        simp only [List.map_cons, List.map_nil]
        exact (range'_one_concat doc.version).symm
      · rw [if_neg hc]
        have hyne : y.id ≠ doc.id := by simpa using hc
        have hne : (doc.id == y.id) = false := by
          simp only [beq_eq_false_iff_ne, ne_eq]
          exact fun h => hyne h.symm
        rw [List.filter_append]
        simp only [List.filter_cons, List.filter_nil]
        rw [hne]
        simp only [Bool.false_eq_true, if_false, List.append_nil]
        exact hvi.ver_range y hy
    · intro d hd v hv hvv
      dsimp only at hd hv hvv ⊢
      rcases List.mem_map.mp hd with ⟨y, hy, rfl⟩
      by_cases hc : (y.id == doc.id) = true
      · rw [if_pos hc] at hv hvv ⊢
        dsimp only [mergeUpdate] at hv hvv ⊢
        rw [List.filter_append] at hv
        simp only [List.filter_cons, List.filter_nil] at hv
        simp only [beq_self_eq_true, if_true] at hv
        rcases List.mem_append.mp hv with hvold | hvnew
        · -- an old row cannot carry the new version number
          exfalso
          have hmem : v.version ∈ (st.documentVersions.filter
              (fun w => w.documentId == doc.id)).map (fun w => w.version) :=
            List.mem_map_of_mem (fun w => w.version) hvold
          rw [hvi.ver_range doc hdocmem] at hmem
          rw [List.mem_range'] at hmem
          obtain ⟨i, hi, heq⟩ := hmem
          omega
        · rcases List.mem_singleton.mp hvnew with rfl
          exact ⟨rfl, rfl, rfl, rfl⟩
      · rw [if_neg hc] at hv hvv ⊢
        have hyne : y.id ≠ doc.id := by simpa using hc
        have hne : (doc.id == y.id) = false := by
          simp only [beq_eq_false_iff_ne, ne_eq]
          exact fun h => hyne h.symm
        rw [List.filter_append] at hv
        simp only [List.filter_cons, List.filter_nil] at hv
        rw [hne] at hv
        simp only [Bool.false_eq_true, if_false, List.append_nil] at hv
        exact hvi.ver_last y hy v hv hvv

end DocStore

namespace DocStore

theorem verInv_applyOp {st : MemStorage} (hwf : WF st) (hvi : VerInv st) (op : Op)
    (hop : op.isDelete = false) : VerInv (applyOp st op) := by
  cases op with
  | newUser ins => exact verInv_createUser hvi ins
  | create ins createdBy => exact verInv_createDocument hwf hvi ins createdBy
  | update id updates updatedBy => exact verInv_updateDocument hwf hvi id updates updatedBy
  | delete id => simp [Op.isDelete] at hop

/-- The C1 invariant holds in every delete-free reachable state. -/
theorem verInv_runOps (ops : List Op) (hnd : ∀ op ∈ ops, op.isDelete = false) :
    VerInv (runOps MemStorage.init ops) := by
  have main : ∀ (l : List Op), (∀ op ∈ l, op.isDelete = false) →
      ∀ st, WF st → VerInv st → VerInv (runOps st l) := by
    intro l
    induction l with
    | nil => exact fun _ st _ h => h
    | cons op t ih =>
      intro hnd st hwf hvi
      rw [runOps, List.foldl_cons]
      exact ih (fun o ho => hnd o (List.mem_cons_of_mem op ho)) _
        (wf_applyOp hwf op) (verInv_applyOp hwf hvi op (hnd op (List.mem_cons_self op t)))
  exact main ops hnd MemStorage.init wf_init verInv_init

/-- C1 (amended): in every state reachable from the constructor state
by `createUser`/`createDocument`/`updateDocument` operations (no
delete), every stored document with version N has exactly N version
rows, numbered 1..N contiguously in insertion order, and a row numbered
N carries the document's current title and content together with the
current summary and tags as normalized by `createDocumentVersion`
(falsy summary coalesced to null, null tags coalesced to the empty
array). The original claim's literal equality of summary and tags with
the current state fails on those normalizations — see the
counterexample. -/
theorem claim1_version_history (ops : List Op)
    (hnd : ∀ op ∈ ops, op.isDelete = false) :
    ∀ d ∈ (runOps MemStorage.init ops).documents,
      (((runOps MemStorage.init ops).documentVersions.filter
          (fun v => v.documentId == d.id)).map (fun v => v.version))
        = List.range' 1 d.version ∧
      ∀ v ∈ (runOps MemStorage.init ops).documentVersions.filter
          (fun v => v.documentId == d.id),
        v.version = d.version →
          v.title = d.title ∧ v.content = d.content ∧
          v.summary = jsOrNull d.summary ∧ v.tags = some (d.tags.getD []) := by
  have hvi := verInv_runOps ops hnd
  exact fun d hd => ⟨hvi.ver_range d hd, hvi.ver_last d hd⟩

/-- C1 witness: after one create and one successful update the stored
document has version 2, its rows are numbered 1, 2, and the version-2
row matches it. -/
theorem claim1_version_history_witness :
    exDocC1 ∈ (runOps MemStorage.init exOpsC1).documents ∧
    (((runOps MemStorage.init exOpsC1).documentVersions.filter
        (fun v => v.documentId == exDocC1.id)).map (fun v => v.version))
      = List.range' 1 exDocC1.version ∧
    exRowC1 ∈ (runOps MemStorage.init exOpsC1).documentVersions.filter
        (fun v => v.documentId == exDocC1.id) ∧
    (exRowC1.title = exDocC1.title ∧ exRowC1.content = exDocC1.content ∧
      exRowC1.summary = jsOrNull exDocC1.summary ∧
      exRowC1.tags = some (exDocC1.tags.getD [])) := by
  refine ⟨by decide,
    (claim1_version_history exOpsC1 (by decide) exDocC1 (by decide)).1,
    by decide,
    (claim1_version_history exOpsC1 (by decide) exDocC1 (by decide)).2 exRowC1
      (by decide) (by decide)⟩

/-- C1 counterexample: in a delete-free reachable state the row
numbered N does not carry the document's current summary and tags —
the store normalizes the falsy empty-string summary to null and the
null tags to the empty array when it writes the snapshot row. -/
theorem claim1_counterexample :
    exOpsC1bad.all (fun op => op.isDelete == false) = true ∧
    exDocC1bad ∈ (runOps MemStorage.init exOpsC1bad).documents ∧
    exRowC1bad ∈ (runOps MemStorage.init exOpsC1bad).documentVersions.filter
        (fun v => v.documentId == exDocC1bad.id) ∧
    exRowC1bad.version = exDocC1bad.version ∧
    exRowC1bad.summary ≠ exDocC1bad.summary ∧
    exRowC1bad.tags ≠ exDocC1bad.tags := by
  decide

end DocStore

namespace DocStore

/-- C4 witness: creating a document in the fresh constructor state. -/
theorem claim4_create_shape_witness :
    ∃ doc st', MemStorage.init.createDocument ⟨"t", "c", none, none⟩ 7 = (doc, st') ∧
      doc.version = 1 ∧ doc.createdAt = doc.updatedAt ∧
      st'.documents = MemStorage.init.documents ++ [doc] ∧
      (∃ v, st'.documentVersions = MemStorage.init.documentVersions ++ [v] ∧
        v.documentId = doc.id ∧ v.version = 1 ∧
        v.changeDescription = some "Initial version") ∧
      (∃ a, st'.activities = MemStorage.init.activities ++ [a] ∧
        a.type = "created" ∧ a.documentId = some doc.id ∧ a.userId = 7) ∧
      st'.users = MemStorage.init.users := by
  obtain ⟨doc, st', heq, _, h2, h3, h4, h5, h6, h7⟩ :=
    claim4_create_shape MemStorage.init ⟨"t", "c", none, none⟩ 7 wf_init
  exact ⟨doc, st', heq, h2, h3, h4, h5, h6, h7⟩

/-- C3 (amended): on an existing document, `updateDocument` merges the
partial fields over the record — a field whose key is absent keeps its
previous value, and absence is distinguished from an explicit null
value — sets `updatedAt` to now, increments `version` by exactly one,
appends one DocumentVersion row tagged with the new version number and
change description "Document updated" whose title and content are the
post-merge ones and whose summary and tags are the post-merge ones as
normalized by `createDocumentVersion` (falsy summary to null, null tags
to the empty array; the original claim's literal post-merge snapshot
equality fails on those normalizations, see the counterexample), and
appends one `"updated"` activity. -/
theorem claim3_update_merge (st : MemStorage) (id : Nat)
    (updates : PartialInsertDocument) (updatedBy : Nat) (doc : Document)
    (hfind : st.documents.find? (fun d => d.id == id) = some doc)
    (hwf : WF st) :
    ∃ merged st', st.updateDocument id updates updatedBy = (some merged, st') ∧
      merged.title = updates.title.getD doc.title ∧
      merged.content = updates.content.getD doc.content ∧
      merged.summary = updates.summary.getD doc.summary ∧
      merged.tags = updates.tags.getD doc.tags ∧
      merged.updatedAt = st.clock ∧
      merged.version = doc.version + 1 ∧
      (∃ v, st'.documentVersions = st.documentVersions ++ [v] ∧
        v.documentId = id ∧ v.version = merged.version ∧
        v.title = merged.title ∧ v.content = merged.content ∧
        v.summary = jsOrNull merged.summary ∧
        v.tags = some (merged.tags.getD []) ∧
        v.changeDescription = some "Document updated") ∧
      (∃ a, st'.activities = st.activities ++ [a] ∧
        a.type = "updated" ∧ a.documentId = some id ∧ a.userId = updatedBy) := by
  rw [updateDocument_eq st id updates updatedBy doc hfind
    (fun v hv => Nat.ne_of_lt (hwf.ver_lt v hv))
    (fun a ha => by have := hwf.act_lt a ha; omega)]
  exact ⟨_, _, rfl, rfl, rfl, rfl, rfl, rfl, rfl,
    ⟨_, rfl, rfl, rfl, rfl, rfl, rfl, rfl, rfl⟩, ⟨_, rfl, rfl, rfl, rfl⟩⟩

/-- C3 witness: a title-only update of the example document keeps
content/summary/tags, bumps the version to 2 and appends the snapshot
row and the activity. -/
theorem claim3_update_merge_witness :
    ∃ merged st',
      exSt1.updateDocument 0 ⟨some "t2", none, none, none⟩ 9 = (some merged, st') ∧
      merged.title = (some "t2").getD exDoc1.title ∧
      merged.content = (none : Option String).getD exDoc1.content ∧
      merged.summary = (none : Option (Option String)).getD exDoc1.summary ∧
      merged.tags = (none : Option (Option (List String))).getD exDoc1.tags ∧
      merged.updatedAt = exSt1.clock ∧
      merged.version = exDoc1.version + 1 ∧
      (∃ v, st'.documentVersions = exSt1.documentVersions ++ [v] ∧
        v.documentId = 0 ∧ v.version = merged.version ∧
        v.title = merged.title ∧ v.content = merged.content ∧
        v.summary = jsOrNull merged.summary ∧
        v.tags = some (merged.tags.getD []) ∧
        v.changeDescription = some "Document updated") ∧
      (∃ a, st'.activities = exSt1.activities ++ [a] ∧
        a.type = "updated" ∧ a.documentId = some 0 ∧ a.userId = 9) :=
  claim3_update_merge exSt1 0 ⟨some "t2", none, none, none⟩ 9 exDoc1 (by decide)
    ⟨by decide, by decide, by decide, by decide, by decide⟩

/-- C3 counterexample: updating the example document with an explicit
empty-string summary merges `""` into the document, but the appended
version row stores null instead of the post-merge summary, so the
appended row is not a literal snapshot of the post-merge fields. -/
theorem claim3_counterexample :
    (exSt1.updateDocument 0 ⟨none, none, some (some ""), none⟩ 9).1
        = some exMergedC3 ∧
    (exSt1.updateDocument 0 ⟨none, none, some (some ""), none⟩ 9).2.documentVersions
        = exSt1.documentVersions ++ [exRowC3] ∧
    exRowC3.version = exMergedC3.version ∧
    exRowC3.summary ≠ exMergedC3.summary := by
  decide

/-- C9: on an existing document, `updateDocument` leaves the document's
id, original author (`createdBy`) and `createdAt` unchanged no matter
who edits, while the appended DocumentVersion row carries the editor
(the `updatedBy` argument) as its `createdBy`. -/
theorem claim9_update_attribution (st : MemStorage) (id : Nat)
    (updates : PartialInsertDocument) (updatedBy : Nat) (doc : Document)
    (hfind : st.documents.find? (fun d => d.id == id) = some doc)
    (hwf : WF st) :
    ∃ merged st', st.updateDocument id updates updatedBy = (some merged, st') ∧
      merged.id = doc.id ∧ merged.createdBy = doc.createdBy ∧
      merged.createdAt = doc.createdAt ∧
      ∃ v, st'.documentVersions = st.documentVersions ++ [v] ∧
        v.version = doc.version + 1 ∧ v.createdBy = updatedBy := by
  rw [updateDocument_eq st id updates updatedBy doc hfind
    (fun v hv => Nat.ne_of_lt (hwf.ver_lt v hv))
    (fun a ha => by have := hwf.act_lt a ha; omega)]
  exact ⟨_, _, rfl, rfl, rfl, rfl, _, rfl, rfl, rfl⟩

/-- C9 witness: editor 9 updates the document created by user 7;
ownership fields survive, the row is attributed to 9. -/
theorem claim9_update_attribution_witness :
    ∃ merged st',
      exSt1.updateDocument 0 ⟨some "t2", none, none, none⟩ 9 = (some merged, st') ∧
      merged.id = exDoc1.id ∧ merged.createdBy = exDoc1.createdBy ∧
      merged.createdAt = exDoc1.createdAt ∧
      ∃ v, st'.documentVersions = exSt1.documentVersions ++ [v] ∧
        v.version = exDoc1.version + 1 ∧ v.createdBy = 9 :=
  claim9_update_attribution exSt1 0 ⟨some "t2", none, none, none⟩ 9 exDoc1 (by decide)
    ⟨by decide, by decide, by decide, by decide, by decide⟩

end DocStore

namespace DocStore

theorem mem_mapSetBy {α : Type} {l : List α} {key : α → Nat} {x : α} :
    ∀ y ∈ mapSetBy l key x, y ∈ l ∨ y = x := by
  intro y hy
  unfold mapSetBy at hy
  split at hy
  · rcases List.mem_map.mp hy with ⟨z, hz, rfl⟩
    by_cases h : (key z == key x) = true
    · rw [if_pos h]
      exact Or.inr rfl
    · rw [if_neg h]
      exact Or.inl hz
  · rcases List.mem_append.mp hy with h | h
    · exact Or.inl h
    · exact Or.inr (List.mem_singleton.mp h)

theorem actOk_createUser {st : MemStorage} (h : ActOk st) (ins : InsertUser) :
    ActOk (st.createUser ins).2 := by
  intro a ha
  obtain ⟨_, _, h3, _⟩ := createUser_components st ins
  rw [h3] at ha
  exact h a ha

theorem actOk_createDocument {st : MemStorage} (h : ActOk st) (ins : InsertDocument)
    (createdBy : Nat) : ActOk (st.createDocument ins createdBy).2 := by
  simp only [ActOk, MemStorage.createDocument, MemStorage.createDocumentVersion,
    MemStorage.createActivity, MemStorage.freshId, MemStorage.newDate]
  intro a ha
  rcases mem_mapSetBy a ha with hmem | rfl
  · exact h a hmem
  · exact Or.inl rfl

theorem actOk_updateDocument {st : MemStorage} (h : ActOk st) (id : Nat)
    (updates : PartialInsertDocument) (updatedBy : Nat) :
    ActOk (st.updateDocument id updates updatedBy).2 := by
  cases hfind : st.documents.find? (fun d => d.id == id) with
  | none =>
    rw [MemStorage.updateDocument, hfind]
    exact h
  | some doc =>
    simp only [ActOk, MemStorage.updateDocument, MemStorage.createDocumentVersion,
      MemStorage.createActivity, MemStorage.freshId, MemStorage.newDate, hfind]
    intro a ha
    rcases mem_mapSetBy a ha with hmem | rfl
    · exact h a hmem
    · exact Or.inr rfl

theorem actOk_deleteDocument {st : MemStorage} (h : ActOk st) (id : Nat) :
    ActOk (st.deleteDocument id).2 := by
  cases hfind : st.documents.find? (fun d => d.id == id) with
  | none =>
    rw [MemStorage.deleteDocument, hfind]
    exact h
  | some doc =>
    rw [MemStorage.deleteDocument, hfind]
    intro a ha
    exact h a (List.mem_filter.mp ha).1

/-- C10: in every state reachable through any sequence of store
operations, every stored activity has type `"created"` or `"updated"`;
no operation ever records a `"deleted"` activity, and `deleteDocument`
in particular appends nothing to the activity log (every activity
present afterwards was already present), so a deletion leaves no audit
record. -/
theorem claim10_no_deleted_activity :
    (∀ ops : List Op, ∀ a ∈ (runOps MemStorage.init ops).activities,
      a.type = "created" ∨ a.type = "updated") ∧
    (∀ (st : MemStorage) (id : Nat),
      ∀ a ∈ (st.deleteDocument id).2.activities, a ∈ st.activities) := by
  constructor
  · have main : ∀ (l : List Op), ∀ st, ActOk st → ActOk (runOps st l) := by
      intro l
      induction l with
      | nil => exact fun st h => h
      | cons op t ih =>
        intro st h
        rw [runOps, List.foldl_cons]
        refine ih _ ?_
        cases op with
        | newUser ins => exact actOk_createUser h ins
        | create ins createdBy => exact actOk_createDocument h ins createdBy
        | update id updates updatedBy => exact actOk_updateDocument h id updates updatedBy
        | delete id => exact actOk_deleteDocument h id
    intro ops
    exact main ops MemStorage.init (by intro a ha; simp [MemStorage.init] at ha)
  · intro st id a ha
    cases hfind : st.documents.find? (fun d => d.id == id) with
    | none =>
      rw [MemStorage.deleteDocument, hfind] at ha
      exact ha
    | some doc =>
      rw [MemStorage.deleteDocument, hfind] at ha
      exact (List.mem_filter.mp ha).1

end DocStore

namespace DocStore

/-- C8: `getDocuments` is a permutation of the stored documents with
resolvable author, each joined with that author; an element belongs to
it exactly when its document is stored and its user is the resolved
author; and it is sorted by `updatedAt` descending, so of two entries
with distinct update times the more recently updated precedes. -/
theorem claim8_list_order (st : MemStorage) :
    (st.getDocuments).Pairwise (fun a b => b.doc.updatedAt ≤ a.doc.updatedAt) ∧
    (st.getDocuments).Perm
      (st.documents.filterMap
        (fun d => (st.getUser d.createdBy).map (fun u => DocumentWithUser.mk d u))) ∧
    ∀ x : DocumentWithUser, x ∈ st.getDocuments ↔
      (x.doc ∈ st.documents ∧ st.getUser x.doc.createdBy = some x.user) := by
  refine ⟨?_, ?_, ?_⟩
  · rw [MemStorage.getDocuments]
    refine List.Pairwise.imp ?_ (List.sorted_mergeSort ?_ ?_ _)
    · intro a b h
      exact of_decide_eq_true h
    · intro a b c hab hbc
      simp only [MemStorage.byUpdatedAtDesc, decide_eq_true_eq] at hab hbc ⊢
      omega
    · intro a b
      simp only [MemStorage.byUpdatedAtDesc]
      rcases Nat.le_total b.doc.updatedAt a.doc.updatedAt with h | h
      · simp [h]
      · simp [h]
  · rw [MemStorage.getDocuments]
    exact List.mergeSort_perm _ _
  · intro x
    rw [MemStorage.getDocuments, List.mem_mergeSort, List.mem_filterMap]
    constructor
    · rintro ⟨d, hd, hmap⟩
      rcases Option.map_eq_some'.mp hmap with ⟨u, hu, hx⟩
      cases hx
      exact ⟨hd, hu⟩
    · rintro ⟨hd, hu⟩
      refine ⟨x.doc, hd, ?_⟩
      rw [hu]
      rfl

end DocStore

namespace DocStore

theorem joinActivity_spec {st : MemStorage} {a : Activity} {x : ActivityWithUser}
    (h : st.joinActivity a = some x) :
    x.act = a ∧ st.getUser a.userId = some x.user ∧ x.document = st.docLookup a := by
  unfold MemStorage.joinActivity at h
  cases hu : st.getUser a.userId with
  | none =>
    rw [hu] at h
    exact absurd h (by simp)
  | some user =>
    rw [hu] at h
    injection h with h2
    subst h2
    exact ⟨rfl, rfl, rfl⟩

theorem joinActivity_isSome (st : MemStorage) (a : Activity) :
    (st.joinActivity a).isSome = (st.getUser a.userId).isSome := by
  unfold MemStorage.joinActivity
  cases hu : st.getUser a.userId <;> simp

/-- C6: `getRecentActivities limit` works over the stored activities
sorted newest first (a permutation of the log, sorted by `createdAt`
descending) truncated to `limit` — that truncation is the `limit` most
recent activities — and joins each one with its acting user and, when
it references one, its document. Its output is ordered newest first;
every activity of the truncated window whose user resolves appears,
joined, and the output length counts exactly the window's resolvable
activities, so an activity whose `userId` does not resolve is silently
dropped rather than reported as an error. -/
theorem claim6_recent_activities (st : MemStorage) (limit : Nat) :
    (st.recentSorted).Perm st.activities ∧
    (st.recentSorted).Pairwise (fun a b => b.createdAt ≤ a.createdAt) ∧
    (st.getRecentActivities limit).Pairwise
      (fun x y => y.act.createdAt ≤ x.act.createdAt) ∧
    (∀ x ∈ st.getRecentActivities limit,
      x.act ∈ (st.recentSorted).take limit ∧
      st.getUser x.act.userId = some x.user ∧
      x.document = st.docLookup x.act) ∧
    (∀ a ∈ (st.recentSorted).take limit, ∀ u, st.getUser a.userId = some u →
      ActivityWithUser.mk a u (st.docLookup a) ∈ st.getRecentActivities limit) ∧
    (st.getRecentActivities limit).length
      = ((st.recentSorted).take limit).countP (fun a => (st.getUser a.userId).isSome) := by
  have hsorted : (st.recentSorted).Pairwise (fun a b => b.createdAt ≤ a.createdAt) := by
    rw [MemStorage.recentSorted]
    refine List.Pairwise.imp ?_ (List.sorted_mergeSort ?_ ?_ _)
    · intro a b h
      exact of_decide_eq_true h
    · intro a b c hab hbc
      simp only [decide_eq_true_eq] at hab hbc ⊢
      omega
    · intro a b
      rcases Nat.le_total b.createdAt a.createdAt with h | h
      · simp [h]
      · simp [h]
  refine ⟨?_, hsorted, ?_, ?_, ?_, ?_⟩
  · rw [MemStorage.recentSorted]
    exact List.mergeSort_perm _ _
  · rw [MemStorage.getRecentActivities]
    refine pairwise_filterMap_of_pairwise ?_
      (List.Pairwise.sublist (List.take_sublist limit _) hsorted)
    intro a b x y hab hfa hfb
    rw [(joinActivity_spec hfa).1, (joinActivity_spec hfb).1]
    exact hab
  · intro x hx
    rw [MemStorage.getRecentActivities] at hx
    rcases List.mem_filterMap.mp hx with ⟨a, ha, hj⟩
    obtain ⟨h1, h2, h3⟩ := joinActivity_spec hj
    subst h1
    exact ⟨ha, h2, h3⟩
  · intro a ha u hu
    rw [MemStorage.getRecentActivities]
    refine List.mem_filterMap.mpr ⟨a, ha, ?_⟩
    simp [MemStorage.joinActivity, hu]
  · rw [MemStorage.getRecentActivities,
      length_filterMap_eq_countP (st.joinActivity) ((st.recentSorted).take limit)]
    refine List.countP_congr ?_
    intro a _
    rw [joinActivity_isSome]

end DocStore

namespace DocStore

/-- C5: `searchDocuments` returns exactly the elements of
`getDocuments` matched by the case-insensitive substring predicate of
the specification, in `getDocuments`' relative order (a filter
preserves it). The implementation's extra short-circuit on a falsy
empty-string summary never changes the outcome: an empty summary can
only contain the empty query, which the title test already matches. -/
theorem claim5_search_filter (st : MemStorage) (query : String) :
    st.searchDocuments query = (st.getDocuments).filter (specSearchMatch query) := by
  simp only [MemStorage.searchDocuments]
  refine List.filter_congr ?_
  intro d _
  cases hs : d.doc.summary with
  | none => simp [specSearchMatch, hs]
  | some s =>
    by_cases hse : s = ""
    · subst hse
      cases hw : (strToLower query).toList with
      | nil =>
        have htitle : strIncludes (strToLower d.doc.title) (strToLower query) = true := by
          rw [strIncludes, hw]
          exact charsInclude_nil_right _
        simp [specSearchMatch, hs, htitle]
      | cons c cs =>
        have hempty : strIncludes (strToLower ("" : String)) (strToLower query) = false := by
          rw [strIncludes, hw]
          rfl
        simp [specSearchMatch, hs, hempty]
    · have hne : (s == "") = false := by
        simp [hse]
      simp [specSearchMatch, hs, hne]

end DocStore
